import Mathlib

/-!
Verification development for the popmon histogram-splitting engine
(`popmon/hist/hist_splitter.py`), shallowly embedded in Lean 4.

The driver `HistSplitter` (its constructor, `update_divided` and `transform`)
is translated directly from `src/popmon/hist/hist_splitter.py`.  Its
collaborators — `HistogramContainer` and its projection primitive
(`popmon.hist.histogram`), the `Module` base-class helpers
(`get_datastore_object`, `get_features` from `popmon.base`), and the pandas
calls `pd.DataFrame(...).set_index(...)` — are not part of the source under
`src/`; those are modelled from the specification, as marked in their doc
comments.
-/

set_option autoImplicit false

namespace Popmon

/-- Modelled from the spec (the histogram data model of `popmon.hist.histogram`,
not under `src/`): an N-dimensional count structure over an ordered list of
axes.  A 0-dimensional histogram is a bare entry count; an (d+1)-dimensional
histogram is a first axis (with a temporal flag) carrying an ordered sequence
of bins, each bin holding the d-dimensional sub-histogram of the remaining
axes. -/
inductive Hist where
  | leaf (count : Nat)
  | node (temporal : Bool) (subDim : Nat) (bins : List (Int × Hist))
  deriving Repr

/-- Dimensionality reported by a histogram: the declared number of axes. -/
def Hist.ndim : Hist → Nat
  | .leaf _ => 0
  | .node _ d _ => d + 1

/-- Whether the first axis of the histogram is a temporal axis. -/
def Hist.isTs : Hist → Bool
  | .leaf _ => false
  | .node t _ _ => t

mutual

/-- Total entry count of a histogram (deep sum over all bins). -/
def Hist.entries : Hist → Nat
  | .leaf c => c
  | .node _ _ bins => binsEntries bins

/-- Total entry count of a list of first-axis bins. -/
def binsEntries : List (Int × Hist) → Nat
  | [] => 0
  | p :: rest => Hist.entries p.2 + binsEntries rest

end

mutual

/-- Decidable equality for histograms (hand-rolled: `Hist` is a nested
inductive, so `deriving DecidableEq` is unavailable). -/
def Hist.decEq : (a b : Hist) → Decidable (a = b)
  | .leaf c, .leaf c' =>
    match Nat.decEq c c' with
    | isTrue h => isTrue (by rw [h])
    | isFalse h => isFalse (fun hh => h (by cases hh; rfl))
  | .leaf _, .node _ _ _ => isFalse (fun h => Hist.noConfusion h)
  | .node _ _ _, .leaf _ => isFalse (fun h => Hist.noConfusion h)
  | .node t d bins, .node t' d' bins' =>
    match Bool.decEq t t', Nat.decEq d d', binsDecEq bins bins' with
    | isTrue h1, isTrue h2, isTrue h3 => isTrue (by rw [h1, h2, h3])
    | isFalse h1, _, _ => isFalse (fun hh => h1 (by cases hh; rfl))
    | _, isFalse h2, _ => isFalse (fun hh => h2 (by cases hh; rfl))
    | _, _, isFalse h3 => isFalse (fun hh => h3 (by cases hh; rfl))

/-- Decidable equality for bin lists. -/
def binsDecEq : (a b : List (Int × Hist)) → Decidable (a = b)
  | [], [] => isTrue rfl
  | [], _ :: _ => isFalse (fun h => List.noConfusion h)
  | _ :: _, [] => isFalse (fun h => List.noConfusion h)
  | (k, h) :: rest, (k', h') :: rest' =>
    match Int.decEq k k', Hist.decEq h h', binsDecEq rest rest' with
    | isTrue h1, isTrue h2, isTrue h3 => isTrue (by rw [h1, h2, h3])
    | isFalse h1, _, _ => isFalse (fun hh => h1 (by cases hh; rfl))
    | _, isFalse h2, _ => isFalse (fun hh => h2 (by cases hh; rfl))
    | _, _, isFalse h3 => isFalse (fun hh => h3 (by cases hh; rfl))

end

instance : DecidableEq Hist := Hist.decEq

/-- Arguments of the single-axis projection primitive, exactly the keyword
arguments `HistSplitter.transform` passes to
`split_hist_along_first_dimension`. -/
structure SplitArgs where
  short_keys : Bool
  convert_time_index : Bool
  xname : String
  yname : String
  filter_empty_split_hists : Bool
  deriving Repr, DecidableEq

/-- Python `str.split(sep)` for a single-character separator, written with
structural recursion over the character list so that concrete instances
reduce inside the kernel; splitting the empty string yields `[""]`, as in
Python. -/
def pySplitAux (sep : Char) : List Char → List Char → List String
  | [], acc => [acc.reverse.asString]
  | c :: rest, acc =>
    if c = sep then acc.reverse.asString :: pySplitAux sep rest []
    else pySplitAux sep rest (c :: acc)

/-- Python `str.split(sep)` on a string value (see `pySplitAux`). -/
def pySplit (f : String) (sep : Char) : List String := pySplitAux sep f.data []

/-- Python `str.startswith(p)`, via a character-list check that reduces
inside the kernel. -/
def pyStartsWith (f p : String) : Bool := p.data.isPrefixOf f.data

/-- Modelled from the spec: reinterpretation of a first-axis bin boundary as a
timestamp in nanoseconds since 1970 (the spec's "converted timestamps (in ns
since 1970)"). -/
def toTimestampNs (k : Int) : Int := k * 1000000000

/-- Modelled from the spec (`split_hist_along_first_dimension` of
`popmon.hist.histogram`, not under `src/`): given a histogram, produce the
ordered mapping from each bin of axis 0 to the reduced-dimension histogram of
the remaining axes.  Bin keys are converted to timestamps when
`convert_time_index` is set; with `filter_empty_split_hists` every
sub-histogram whose total entry count is zero is dropped, last.  Bins are
emitted in the source axis's stored (natural) order.  `short_keys`, `xname`
and `yname` only affect the identifier tags of the emitted sub-histograms,
not the projection itself, and are carried here untouched. -/
def splitHist (h : Hist) (a : SplitArgs) : List (Int × Hist) :=
  match h with
  | .leaf _ => []
  | .node _ _ bins =>
    let keyed := bins.map (fun p =>
      (if a.convert_time_index then toTimestampNs p.1 else p.1, p.2))
    if a.filter_empty_split_hists then
      keyed.filter (fun p => p.2.entries != 0)
    else keyed

/-- Modelled from the spec (`popmon.hist.histogram.HistogramContainer`, not
under `src/`): wraps exactly one histogram and exposes its derived
metadata. -/
structure HistogramContainer where
  hist : Hist
  deriving Repr

/-- Dimensionality reported by the container. -/
def HistogramContainer.n_dim (hc : HistogramContainer) : Nat := hc.hist.ndim

/-- Whether the container's first axis is temporal. -/
def HistogramContainer.is_ts (hc : HistogramContainer) : Bool := hc.hist.isTs

/-- Projection of the wrapped histogram along its first axis
(see `splitHist`). -/
def HistogramContainer.split_hist_along_first_dimension
    (hc : HistogramContainer) (a : SplitArgs) : List (Int × Hist) :=
  splitHist hc.hist a

instance : DecidableEq HistogramContainer :=
  fun a b =>
    match Hist.decEq a.hist b.hist with
    | isTrue h => isTrue (by cases a; cases b; cases h; rfl)
    | isFalse h => isFalse (fun hh => h (by cases hh; rfl))

/-- A value held in one field of a record dictionary: either a first-axis bin
key or a wrapped sub-histogram (`{index_col: k, hist_col:
HistogramContainer(h)}` in the source). -/
inductive Cell where
  | binKey (k : Int)
  | hcVal (hc : HistogramContainer)
  deriving Repr, DecidableEq

/-- A record dictionary, as built by `update_divided`: Python dict from field
name to value, in insertion order. -/
abbrev Record := List (String × Cell)

/-- Lookup of a field in a record (Python `record[c]`). -/
def recordGet : Record → String → Option Cell
  | [], _ => none
  | (k, v) :: rest, c => if k = c then some v else recordGet rest c

/-- Python dict insertion `record[c] = v`: replace in place if the field
exists, else append. -/
def recordSet : Record → String → Cell → Record
  | [], c, v => [(c, v)]
  | (k, w) :: rest, c, v =>
    if k = c then (c, v) :: rest else (k, w) :: recordSet rest c v

/-- Removal of a field from a record (pandas `set_index` drops the index
column from the remaining data). -/
def recordErase (r : Record) (c : String) : Record :=
  r.filter (fun p => p.1 != c)

/-- Models a pandas `DataFrame` after `set_index`: the name of the index, the
index values in row order, and the remaining fields of each row in the same
order. -/
structure DataFrame where
  indexName : String
  index : List Cell
  rows : List Record
  deriving Repr, DecidableEq

/-- A key of the `divided` accumulator or of a stored dict: Python dict keys
are heterogeneous here — remaining-axis names (`yname` strings) in nested
mode, first-axis bin values in flattened mode. -/
inductive DKey where
  | str (s : String)
  | int (k : Int)
  deriving Repr, DecidableEq

/-- A value of a Python dict travelling through `transform`: an input
histogram, an ordered record sequence accumulated by `update_divided`, or an
indexed table produced by the conversion loop. -/
inductive DVal where
  | hist (h : Hist)
  | recs (rs : List Record)
  | table (df : DataFrame)
  deriving Repr, DecidableEq

/-- A Python dict with `DKey` keys in insertion order. -/
abbrev Dict := List (DKey × DVal)

/-- Python dict lookup (first matching key). -/
def dictGet : Dict → DKey → Option DVal
  | [], _ => none
  | (k, v) :: rest, key => if k = key then some v else dictGet rest key

/-- Python dict insertion `d[k] = v`: replace in place if the key exists,
else append. -/
def dictSet : Dict → DKey → DVal → Dict
  | [], k, v => [(k, v)]
  | (k', v') :: rest, k, v =>
    if k' = k then (k, v) :: rest else (k', v') :: dictSet rest k v

/-- Models the external pandas call `pd.DataFrame(v).set_index(c)` as used in
`transform`: a non-empty sequence of uniform record dictionaries becomes a
table whose index is column `c` (removed from the rows), preserving record
order as row order; any other value (in particular a bare histogram object)
is not a valid `DataFrame` constructor argument and raises. -/
def pdDataFrameSetIndex (c : String) : DVal → Except String DataFrame := fun v =>
  match v with
  | .recs [] => .error "KeyError"
  | .recs rs =>
    if rs.all (fun r => (recordGet r c).isSome) then
      .ok ⟨c, rs.filterMap (fun r => recordGet r c), rs.map (fun r => recordErase r c)⟩
    else .error "KeyError"
  | _ => .error "DataFrame constructor not properly called"

/-- A value held in the pipeline datastore: either a dict (the shapes used by
this stage) or some other stage's payload, opaque to the splitter. -/
inductive DSValue where
  | dict (m : Dict)
  | raw (n : Int)
  deriving Repr, DecidableEq

/-- The pipeline datastore: a mutable key-value map threaded through the
stages, modelled as a Python dict from string keys to values. -/
abbrev Datastore := List (String × DSValue)

/-- Datastore lookup (first matching key). -/
def dsGet : Datastore → String → Option DSValue
  | [], _ => none
  | (k, v) :: rest, key => if k = key then some v else dsGet rest key

/-- Python dict insertion into the datastore: replace in place if the key
exists, else append. -/
def dsSet : Datastore → String → DSValue → Datastore
  | [], k, v => [(k, v)]
  | (k', v') :: rest, k, v =>
    if k' = k then (k, v) :: rest else (k', v') :: dsSet rest k v

/-- Modelled from the spec (`popmon.hist.histogram.HistogramContainer.__init__`,
not under `src/`): the container wraps exactly one histogram; constructing it
from anything that is not a histogram is a type error. -/
def mkHistogramContainer : DVal → Except String HistogramContainer
  | .hist h => .ok ⟨h⟩
  | _ => .error "type of hist not recognized"

/-- Configuration of the `HistSplitter` module, the attributes set by
`HistSplitter.__init__` in `src/popmon/hist/hist_splitter.py` (with the
Python `features or []` / `ignore_features or []` / `var_timestamp or []`
defaulting already applied). -/
structure HistSplitter where
  read_key : String
  store_key : String
  features : List String
  ignore_features : List String
  feature_begins_with : String
  project_on_axes : Bool
  flatten_output : Bool
  short_keys : Bool
  var_timestamp : List String
  index_col : String
  hist_col : String
  filter_empty_split_hists : Bool
  deriving Repr, DecidableEq

/-- `HistSplitter.__init__` from `src/popmon/hist/hist_splitter.py`: stores
the configuration and immediately raises a `RuntimeError` when
`flatten_output` and `short_keys` are both true. -/
def mkHistSplitter (read_key store_key : String)
    (features ignore_features : List String) (feature_begins_with : String)
    (project_on_axes flatten_output short_keys : Bool)
    (var_timestamp : List String) (index_col hist_col : String)
    (filter_empty_split_hists : Bool) : Except String HistSplitter :=
  let s : HistSplitter :=
    ⟨read_key, store_key, features, ignore_features, feature_begins_with,
      project_on_axes, flatten_output, short_keys, var_timestamp, index_col,
      hist_col, filter_empty_split_hists⟩
  if s.flatten_output && s.short_keys then
    .error "flatten_output requires short_keys attribute to be False."
  else
    .ok s

/-- Modelled from the spec (`Module.get_datastore_object` of `popmon.base`,
not under `src/`): fetch the named input from the datastore, requiring it to
be a mapping (`dtype=dict`). -/
def get_datastore_object (ds : Datastore) (key : String) : Except String Dict :=
  match dsGet ds key with
  | some (.dict m) => .ok m
  | some (.raw _) => .error "object in datastore is not of type dict"
  | none => .error "key not found in datastore"

/-- Modelled from the spec (`Module.get_features` of `popmon.base`, not under
`src/`): resolve the candidate feature names from the input mapping's keys —
restrict to the explicit inclusion list when it is non-empty, require the
configured prefix, and drop the ignore list — keeping the keys' order. -/
def get_features (s : HistSplitter) (keys : List DKey) : List String :=
  let names := keys.filterMap (fun k =>
    match k with
    | .str f => some f
    | .int _ => none)
  let chosen := if s.features.isEmpty then names else
    names.filter (fun f => s.features.contains f)
  (chosen.filter (fun f => pyStartsWith f s.feature_begins_with)).filter
    (fun f => !s.ignore_features.contains f)

/-- The record dictionary `{self.index_col: k, self.hist_col:
HistogramContainer(h)}` built by `update_divided` for one split entry, as a
Python dict literal (fields inserted in order). -/
def splitRecord (s : HistSplitter) (p : Int × Hist) : Record :=
  recordSet (recordSet [] s.index_col (.binKey p.1)) s.hist_col (.hcVal ⟨p.2⟩)

/-- `HistSplitter.update_divided` from `src/popmon/hist/hist_splitter.py`:
in flattened mode merge the split mapping directly into the accumulator
(`divided.update(split)`, Python dict update, last write wins); otherwise
store under `yname` the ordered record sequence
`[{index_col: k, hist_col: HistogramContainer(h)} for k, h in split.items()]`. -/
def HistSplitter.update_divided (s : HistSplitter) (divided : Dict)
    (split : List (Int × Hist)) (yname : String) : Dict :=
  if s.flatten_output then
    split.foldl (fun d p => dictSet d (.int p.1) (.hist p.2)) divided
  else
    dictSet divided (.str yname) (.recs (split.map (splitRecord s)))

/-- One projection invocation made during `transform`, recorded for
specification purposes: the candidate feature, the container built for it and
the exact arguments passed to `split_hist_along_first_dimension`. -/
structure ProjCall where
  feature : String
  hc : HistogramContainer
  args : SplitArgs
  deriving Repr, DecidableEq

/-- The body of the candidate loop of `HistSplitter.transform` for one
feature: wrap the histogram in a container, apply the four skip guards of the
source in order (dimensionality ≤ 1; axis-count mismatch; `yname` already
divided; empty split), and otherwise merge via `update_divided`.  Returns the
updated accumulator together with the projection invocation, if one was made. -/
def processFeature (s : HistSplitter) (data : Dict) (f : String)
    (divided : Dict) : Except String (Dict × Option ProjCall) :=
  match dictGet data (.str f) with
  | none => .error "KeyError"
  | some v =>
    match mkHistogramContainer v with
    | .error e => .error e
    | .ok hc =>
      if hc.n_dim ≤ 1 then .ok (divided, none)
      else
        let cols := pySplit f ':'
        if cols.length ≠ hc.n_dim then .ok (divided, none)
        else
          let xname := cols.headD ""
          let yname := String.intercalate ":" cols.tail
          if (dictGet divided (.str yname)).isSome then .ok (divided, none)
          else
            let a : SplitArgs :=
              ⟨s.short_keys, hc.is_ts || s.var_timestamp.contains xname,
                xname, yname, s.filter_empty_split_hists⟩
            let split := hc.split_hist_along_first_dimension a
            if split.isEmpty then .ok (divided, some ⟨f, hc, a⟩)
            else .ok (s.update_divided divided split yname, some ⟨f, hc, a⟩)

/-- The candidate loop of `HistSplitter.transform`, iterating the resolved
features in order and threading the `divided` accumulator; also returns the
list of projection invocations made. -/
def runFeatures (s : HistSplitter) (data : Dict) :
    List String → Dict → Except String (Dict × List ProjCall)
  | [], divided => .ok (divided, [])
  | f :: rest, divided =>
    match processFeature s data f divided with
    | .error e => .error e
    | .ok (d', oc) =>
      match runFeatures s data rest d' with
      | .error e => .error e
      | .ok (dfin, cs) => .ok (dfin, oc.toList ++ cs)

/-- The table-conversion loop at the end of `transform`
(`divided[k] = pd.DataFrame(divided.pop(k)).set_index(self.index_col)` over a
snapshot of the keys): sequentially popping each key and re-appending its
converted value restores the original key order, so the net effect is a
per-entry conversion that preserves entry order, raising at the first value
pandas rejects. -/
def convertDivided (c : String) : Dict → Except String Dict
  | [] => .ok []
  | (k, v) :: rest =>
    match pdDataFrameSetIndex c v with
    | .error e => .error e
    | .ok df =>
      match convertDivided c rest with
      | .error e => .error e
      | .ok rest' => .ok ((k, .table df) :: rest')

/-- `HistSplitter.transform` from `src/popmon/hist/hist_splitter.py`: read the
input mapping, resolve the candidate features, run the candidate loop from an
empty accumulator, convert every accumulated entry to an indexed table, and
store the result under `store_key`.  An error result models a raised Python
exception, which leaves the datastore untouched (the only datastore write in
the source is its final line). -/
def HistSplitter.transform (s : HistSplitter) (datastore : Datastore) :
    Except String Datastore :=
  match get_datastore_object datastore s.read_key with
  | .error e => .error e
  | .ok data =>
    match runFeatures s data (get_features s (data.map Prod.fst)) [] with
    | .error e => .error e
    | .ok (divided, _calls) =>
      match convertDivided s.index_col divided with
      | .error e => .error e
      | .ok out => .ok (dsSet datastore s.store_key (.dict out))

/-- The exact projection arguments the candidate loop derives for feature `f`
wrapping histogram `h`: `xname` is the first colon-separated token, `yname`
the remaining tokens rejoined, the temporal flag is the container's
first-axis flag or a `var_timestamp` membership, and `short_keys` /
`filter_empty_split_hists` are taken from the configuration. -/
def featureArgs (s : HistSplitter) (f : String) (h : Hist) : SplitArgs :=
  ⟨s.short_keys,
    h.isTs || s.var_timestamp.contains ((pySplit f ':').headD ""),
    (pySplit f ':').headD "",
    String.intercalate ":" (pySplit f ':').tail,
    s.filter_empty_split_hists⟩

/-- Decidable equality of `Except` results (not provided by core). -/
instance {e a : Type} [DecidableEq e] [DecidableEq a] : DecidableEq (Except e a) :=
  fun x y =>
    match x, y with
    | .error u, .error v =>
      match decEq u v with
      | isTrue h => isTrue (by rw [h])
      | isFalse h => isFalse (fun hh => h (by cases hh; rfl))
    | .error _, .ok _ => isFalse (fun h => Except.noConfusion h)
    | .ok _, .error _ => isFalse (fun h => Except.noConfusion h)
    | .ok u, .ok v =>
      match decEq u v with
      | isTrue h => isTrue (by rw [h])
      | isFalse h => isFalse (fun hh => h (by cases hh; rfl))

/-- Concrete 2-dimensional histogram over axes `time:x` with three time bins,
the middle one empty, used by concrete instantiations below. -/
def wH2x : Hist := .node false 1 [(0, .leaf 2), (1, .leaf 0), (2, .leaf 3)]

/-- Concrete 1-dimensional histogram (nothing to split). -/
def wH1d : Hist := .node false 0 [(0, .leaf 1)]

/-- Concrete splitter in the default nested mode. -/
def wNested : HistSplitter :=
  ⟨"hists", "output_hists", [], [], "", true, false, true, [], "date",
    "histogram", true⟩

/-- Concrete datastore holding one 2-dimensional input histogram plus an
unrelated entry. -/
def wStore : Datastore :=
  [("hists", .dict [(.str "time:x", .hist wH2x)]), ("other", .raw 7)]

/-- Concrete input mapping with a malformed feature name (three axis tokens
naming a 2-dimensional histogram) next to a valid candidate. -/
def exC5data : Dict :=
  [(.str "time:x:y", .hist wH2x), (.str "time:x", .hist wH2x)]

/-- Concrete input mapping with a 1-dimensional candidate next to a valid
2-dimensional one. -/
def exC6data : Dict :=
  [(.str "onedim", .hist wH1d), (.str "time:x", .hist wH2x)]

/-- Concrete splitter in flattened mode (`flatten_output = true`,
`short_keys = false`, the only combination the constructor admits for
flattening). -/
def wFlat : HistSplitter :=
  ⟨"hists", "output_hists", [], [], "", true, true, false, [], "date",
    "histogram", true⟩

/-- Concrete 2-dimensional histogram whose only time bin `0` is non-empty,
used to exhibit a flattened-mode bin collision. -/
def exC4hu : Hist := .node false 1 [(0, .leaf 5)]

/-- Concrete input mapping with two distinct features (`t:x` and `u:x`) that
derive the same `yname` `x` after dropping their first axis token. -/
def exC4data : Dict := [(.str "t:x", .hist wH2x), (.str "u:x", .hist exC4hu)]

/-- Concrete accumulator already holding an entry for `yname` `x`. -/
def exC4div0 : Dict := [(.str "x", .recs [[("date", .binKey 0)]])]

/-- Concrete input mapping with one fresh feature (`t:z`) and one feature
(`u:x`) whose derived `yname` is already accumulated. -/
def exC4data2 : Dict := [(.str "t:z", .hist wH2x), (.str "u:x", .hist exC4hu)]

/-- Concrete 2-dimensional histogram all of whose time bins are empty, so
that its projection (with default filtering) is empty. -/
def wHempty : Hist := .node false 1 [(0, .leaf 0)]

/-- Concrete input mapping whose only candidate projects to an empty split. -/
def exC7data : Dict := [(.str "te:x", .hist wHempty)]

/-- Concrete nested-mode splitter that force-treats axis `u` as temporal via
`var_timestamp`. -/
def exC8s : HistSplitter :=
  ⟨"hists", "output_hists", [], [], "", true, false, true, ["u"], "date",
    "histogram", true⟩

/-- Concrete splitter whose `store_key` equals its `read_key` and whose
prefix filter `t` matches raw feature names but no derived group name. -/
def exC9s : HistSplitter :=
  ⟨"k", "k", [], [], "t", true, false, true, [], "date", "histogram", true⟩

/-- Concrete datastore for `exC9s`: one 2-dimensional histogram under the
shared key. -/
def exC9ds : Datastore := [("k", .dict [(.str "t:x", .hist wH2x)])]

/-- The mapping a single `exC9s.transform` run stores under the shared key. -/
def exC9out : Dict :=
  [(.str "x", .table ⟨"date", [.binKey 0, .binKey 2],
    [[("histogram", .hcVal ⟨.leaf 2⟩)], [("histogram", .hcVal ⟨.leaf 3⟩)]]⟩)]

/-- Concrete datastore whose input mapping is empty (no candidate at all). -/
def exC10ds : Datastore := [("hists", .dict [])]

theorem dictGet_dictSet_self (d : Dict) (k : DKey) (v : DVal) :
    dictGet (dictSet d k v) k = some v := by
  induction d with
  | nil => simp [dictSet, dictGet]
  | cons p rest ih =>
    by_cases h : p.1 = k
    · simp [dictSet, dictGet, h]
    · simp [dictSet, dictGet, h, ih]

theorem dictGet_dictSet_ne (d : Dict) (k k' : DKey) (v : DVal)
    (h : k' ≠ k) : dictGet (dictSet d k v) k' = dictGet d k' := by
  induction d with
  | nil => simp [dictSet, dictGet, Ne.symm h]
  | cons p rest ih =>
    rcases p with ⟨pk, pv⟩
    by_cases hp : pk = k
    · subst hp
      simp [dictSet, dictGet, Ne.symm h]
    · by_cases hp' : pk = k'
      · simp [dictSet, dictGet, hp, hp', h]
      · simp [dictSet, dictGet, hp, hp', ih]

theorem dsGet_dsSet_self (d : Datastore) (k : String) (v : DSValue) :
    dsGet (dsSet d k v) k = some v := by
  induction d with
  | nil => simp [dsSet, dsGet]
  | cons p rest ih =>
    by_cases h : p.1 = k
    · simp [dsSet, dsGet, h]
    · simp [dsSet, dsGet, h, ih]

theorem dsGet_dsSet_ne (d : Datastore) (k k' : String) (v : DSValue)
    (h : k' ≠ k) : dsGet (dsSet d k v) k' = dsGet d k' := by
  induction d with
  | nil => simp [dsSet, dsGet, Ne.symm h]
  | cons p rest ih =>
    rcases p with ⟨pk, pv⟩
    by_cases hp : pk = k
    · subst hp
      simp [dsSet, dsGet, Ne.symm h]
    · by_cases hp' : pk = k'
      · simp [dsSet, dsGet, hp, hp', h]
      · simp [dsSet, dsGet, hp, hp', ih]

theorem dsSet_dsSet_same (d : Datastore) (k : String) (v : DSValue) :
    dsSet (dsSet d k v) k v = dsSet d k v := by
  induction d with
  | nil => simp [dsSet]
  | cons p rest ih =>
    by_cases h : p.1 = k
    · simp [dsSet, h]
    · simp [dsSet, h, ih]

theorem dictGet_str_foldl_int (sp : List (Int × Hist)) (d : Dict) (y : String) :
    dictGet (sp.foldl (fun d p => dictSet d (.int p.1) (.hist p.2)) d) (.str y)
      = dictGet d (.str y) := by
  induction sp generalizing d with
  | nil => rfl
  | cons p rest ih =>
    simp only [List.foldl_cons]
    rw [ih, dictGet_dictSet_ne]
    intro h
    exact DKey.noConfusion h

/-- `update_divided` never touches an accumulator entry under a string key
other than the `yname` it is merging (in flattened mode it only writes
integer bin keys). -/
theorem update_divided_preserves_other (s : HistSplitter) (divided : Dict)
    (split : List (Int × Hist)) (yname y : String) (h : y ≠ yname) :
    dictGet (s.update_divided divided split yname) (.str y)
      = dictGet divided (.str y) := by
  unfold HistSplitter.update_divided
  by_cases hf : s.flatten_output
  · simp only [hf, if_true]
    exact dictGet_str_foldl_int split divided y
  · simp only [hf, if_false, Bool.false_eq_true]
    rw [dictGet_dictSet_ne]
    intro hc
    cases hc
    exact h rfl

/-- Reduction of `processFeature` once the candidate's value is known to be a
histogram: the container wraps it and the guard cascade of the source runs on
its metadata (this is a definitional unfolding, recorded once for reuse). -/
theorem processFeature_eq (s : HistSplitter) (data : Dict) (f : String)
    (divided : Dict) (h : Hist)
    (hval : dictGet data (.str f) = some (.hist h)) :
    processFeature s data f divided =
      (if h.ndim ≤ 1 then .ok (divided, none)
       else if (pySplit f ':').length ≠ h.ndim then .ok (divided, none)
       else if (dictGet divided (.str (featureArgs s f h).yname)).isSome then
         .ok (divided, none)
       else if (splitHist h (featureArgs s f h)).isEmpty then
         .ok (divided, some ⟨f, ⟨h⟩, featureArgs s f h⟩)
       else
         .ok (s.update_divided divided (splitHist h (featureArgs s f h))
             (featureArgs s f h).yname,
           some ⟨f, ⟨h⟩, featureArgs s f h⟩)) := by
  unfold processFeature
  rw [hval]
  rfl

/-- Exhaustive description of a successful `processFeature` step: either the
candidate was skipped by one of the first three guards (accumulator
untouched, no projection), or its projection was invoked with exactly the
derived arguments, after which an empty result is dropped and a non-empty one
is merged by `update_divided`. -/
theorem processFeature_ok_cases (s : HistSplitter) (data : Dict) (f : String)
    (d d' : Dict) (oc : Option ProjCall)
    (hok : processFeature s data f d = .ok (d', oc)) :
    (d' = d ∧ oc = none) ∨
    ∃ h, dictGet data (.str f) = some (.hist h) ∧ 1 < h.ndim ∧
      (pySplit f ':').length = h.ndim ∧
      dictGet d (.str (featureArgs s f h).yname) = none ∧
      oc = some ⟨f, ⟨h⟩, featureArgs s f h⟩ ∧
      ((splitHist h (featureArgs s f h) = [] ∧ d' = d) ∨
       (splitHist h (featureArgs s f h) ≠ [] ∧
         d' = s.update_divided d (splitHist h (featureArgs s f h))
           (featureArgs s f h).yname)) := by
  cases hval : dictGet data (.str f) with
  | none =>
    unfold processFeature at hok
    rw [hval] at hok
    exact Except.noConfusion hok
  | some v =>
    cases v with
    | recs rs =>
      unfold processFeature at hok
      rw [hval] at hok
      exact Except.noConfusion hok
    | table df =>
      unfold processFeature at hok
      rw [hval] at hok
      exact Except.noConfusion hok
    | hist h =>
      rw [processFeature_eq s data f d h hval] at hok
      split_ifs at hok with hd hlen hdup hsp
      · simp only [Except.ok.injEq, Prod.mk.injEq] at hok
        exact Or.inl ⟨hok.1.symm, hok.2.symm⟩
      · simp only [Except.ok.injEq, Prod.mk.injEq] at hok
        exact Or.inl ⟨hok.1.symm, hok.2.symm⟩
      · simp only [Except.ok.injEq, Prod.mk.injEq] at hok
        exact Or.inl ⟨hok.1.symm, hok.2.symm⟩
      · simp only [Except.ok.injEq, Prod.mk.injEq] at hok
        refine Or.inr ⟨h, rfl, Nat.lt_of_not_le hd, Decidable.not_not.mp hlen,
          Option.not_isSome_iff_eq_none.mp (by simpa using hdup), ?_,
          Or.inl ⟨by simpa [List.isEmpty_iff] using hsp, hok.1.symm⟩⟩
        rw [← hok.2]
      · simp only [Except.ok.injEq, Prod.mk.injEq] at hok
        refine Or.inr ⟨h, rfl, Nat.lt_of_not_le hd, Decidable.not_not.mp hlen,
          Option.not_isSome_iff_eq_none.mp (by simpa using hdup), ?_, Or.inr
          ⟨by simpa [List.isEmpty_iff] using hsp, hok.1.symm⟩⟩
        rw [← hok.2]

/-- A candidate whose guards make `processFeature` a pure skip (no accumulator
change, no projection) can be deleted from the feature list without changing
anything the candidate loop produces — the other candidates are processed
exactly as before. -/
theorem runFeatures_skip_elim (s : HistSplitter) (data : Dict) (f : String)
    (hskip : ∀ d, processFeature s data f d = .ok (d, none)) :
    ∀ (fs1 fs2 : List String) (d : Dict),
      runFeatures s data (fs1 ++ f :: fs2) d = runFeatures s data (fs1 ++ fs2) d := by
  intro fs1
  induction fs1 with
  | nil =>
    intro fs2 d
    simp only [List.nil_append, runFeatures, hskip d]
    cases hrest : runFeatures s data fs2 d with
    | error e => rfl
    | ok p => simp
  | cons g fs1 ih =>
    intro fs2 d
    simp only [List.cons_append, runFeatures]
    cases hg : processFeature s data g d with
    | error e => rfl
    | ok p =>
      rcases p with ⟨d2, oc⟩
      simp only [List.append_eq]
      rw [ih fs2 d2]

/-- Elimination principle for one step of the candidate loop: a successful
run over `f :: fs` consists of a successful `processFeature` step for `f`
followed by a successful run over `fs` from the updated accumulator, with the
recorded calls concatenated. -/
theorem runFeatures_cons_elim (s : HistSplitter) (data : Dict) (f : String)
    (fs : List String) (div div' : Dict) (calls : List ProjCall)
    (hok : runFeatures s data (f :: fs) div = .ok (div', calls)) :
    ∃ d2 oc cs, processFeature s data f div = .ok (d2, oc) ∧
      runFeatures s data fs d2 = .ok (div', cs) ∧ calls = oc.toList ++ cs := by
  unfold runFeatures at hok
  split at hok
  · exact Except.noConfusion hok
  · rename_i p d2 oc hpf
    split at hok
    · exact Except.noConfusion hok
    · rename_i q dfin cs hrest
      simp only [Except.ok.injEq, Prod.mk.injEq] at hok
      obtain ⟨rfl, rfl⟩ := hok
      exact ⟨d2, oc, cs, hpf, hrest, rfl⟩

/-- A candidate whose histogram has dimensionality at most 1 is skipped before
name-splitting or projection: the accumulator is returned unchanged, no
projection call is recorded, and no error is raised. -/
theorem processFeature_lowdim_skip (s : HistSplitter) (data : Dict)
    (f : String) (h : Hist) (d : Dict)
    (hval : dictGet data (.str f) = some (.hist h))
    (hdim : h.ndim ≤ 1) :
    processFeature s data f d = .ok (d, none) := by
  rw [processFeature_eq s data f d h hval, if_pos hdim]

/-- A candidate whose colon-token count disagrees with its histogram's
dimensionality is skipped: the accumulator is returned unchanged, no
projection call is recorded, and no error is raised. -/
theorem processFeature_mismatch_skip (s : HistSplitter) (data : Dict)
    (f : String) (h : Hist) (d : Dict)
    (hval : dictGet data (.str f) = some (.hist h))
    (hmm : (pySplit f ':').length ≠ h.ndim) :
    processFeature s data f d = .ok (d, none) := by
  rw [processFeature_eq s data f d h hval]
  by_cases hdim : h.ndim ≤ 1
  · rw [if_pos hdim]
  · rw [if_neg hdim, if_pos hmm]

/-- Introduction rule for `transform`: successful input lookup, candidate
loop and table conversion yield a successful transform that stores the
converted tables under `store_key`. -/
theorem transform_intro (s : HistSplitter) (ds : Datastore) (data : Dict)
    (div : Dict) (calls : List ProjCall) (out : Dict)
    (h1 : get_datastore_object ds s.read_key = .ok data)
    (h2 : runFeatures s data (get_features s (data.map Prod.fst)) []
      = .ok (div, calls))
    (h3 : convertDivided s.index_col div = .ok out) :
    s.transform ds = .ok (dsSet ds s.store_key (.dict out)) := by
  unfold HistSplitter.transform
  rw [h1]
  simp only [h2, h3]

/-- Elimination rule for a successful `transform`: it decomposes into a
successful input lookup, candidate loop and table conversion, and the result
is the input datastore with the converted tables stored under `store_key`. -/
theorem transform_ok_elim (s : HistSplitter) (ds ds' : Datastore)
    (hok : s.transform ds = .ok ds') :
    ∃ data div calls out,
      get_datastore_object ds s.read_key = .ok data ∧
      runFeatures s data (get_features s (data.map Prod.fst)) []
        = .ok (div, calls) ∧
      convertDivided s.index_col div = .ok out ∧
      ds' = dsSet ds s.store_key (.dict out) := by
  unfold HistSplitter.transform at hok
  split at hok
  · exact Except.noConfusion hok
  · rename_i data h1
    split at hok
    · exact Except.noConfusion hok
    · rename_i p div calls h2
      split at hok
      · exact Except.noConfusion hok
      · rename_i out h3
        simp only [Except.ok.injEq] at hok
        exact ⟨data, div, calls, out, h1, h2, h3, hok.symm⟩

/-- Each entry of the converted output corresponds to an entry of the
accumulator under the same key whose value pandas accepted. -/
theorem convertDivided_entry (c : String) :
    ∀ (div out : Dict), convertDivided c div = .ok out →
      ∀ k w, dictGet out k = some w →
        ∃ v df, dictGet div k = some v ∧ pdDataFrameSetIndex c v = .ok df ∧
          w = .table df := by
  intro div
  induction div with
  | nil =>
    intro out hok k w hw
    simp only [convertDivided, Except.ok.injEq] at hok
    subst hok
    simp [dictGet] at hw
  | cons p rest ih =>
    rcases p with ⟨k0, v0⟩
    intro out hok k w hw
    unfold convertDivided at hok
    split at hok
    · exact Except.noConfusion hok
    · rename_i df0 hpd
      split at hok
      · exact Except.noConfusion hok
      · rename_i rest2 hconv
        simp only [Except.ok.injEq] at hok
        subst hok
        by_cases hk : k0 = k
        · refine ⟨v0, df0, by simp [dictGet, hk], hpd, ?_⟩
          simp only [dictGet, hk, if_pos] at hw
          exact (Option.some.inj hw).symm
        · simp only [dictGet, hk, if_neg, if_false] at hw
          obtain ⟨v, df, hv, hpd2, hw2⟩ := ih rest2 hconv k w hw
          exact ⟨v, df, by simp [dictGet, hk, hv], hpd2, hw2⟩

/-- pandas accepts exactly a non-empty record sequence: a successful
conversion of a value decomposes it as such, and the produced table extracts
the index column and keeps the remaining fields row by row. -/
theorem pdDataFrameSetIndex_ok_shape (c : String) (v : DVal) (df : DataFrame)
    (hok : pdDataFrameSetIndex c v = .ok df) :
    ∃ r rs, v = .recs (r :: rs) ∧
      df = ⟨c, (r :: rs).filterMap (fun t => recordGet t c),
        (r :: rs).map (fun t => recordErase t c)⟩ := by
  cases v with
  | hist h => exact Except.noConfusion hok
  | table d => exact Except.noConfusion hok
  | recs rs =>
    cases rs with
    | nil => exact Except.noConfusion hok
    | cons r rest =>
      simp only [pdDataFrameSetIndex] at hok
      split at hok
      · simp only [Except.ok.injEq] at hok
        exact ⟨r, rest, rfl, hok.symm⟩
      · exact Except.noConfusion hok

/-- In nested mode, `update_divided` is exactly a dict insertion of the
ordered record sequence under `yname`. -/
theorem update_divided_nested (s : HistSplitter) (hflat : s.flatten_output = false)
    (divided : Dict) (split : List (Int × Hist)) (yname : String) :
    s.update_divided divided split yname
      = dictSet divided (.str yname) (.recs (split.map (splitRecord s))) := by
  unfold HistSplitter.update_divided
  rw [if_neg (by simp [hflat])]

/-- Each record built for a split entry has exactly the two configured
fields, in insertion order (when the two field names differ). -/
theorem splitRecord_fields (s : HistSplitter) (hcols : s.index_col ≠ s.hist_col)
    (p : Int × Hist) :
    splitRecord s p
      = [(s.index_col, .binKey p.1), (s.hist_col, .hcVal ⟨p.2⟩)] := by
  simp [splitRecord, recordSet, hcols]

/-- pandas conversion of the record sequence built for a non-empty split:
the index is the ordered list of bin keys and each row keeps exactly the
sub-histogram payload, in split order. -/
theorem pd_on_splitRecords (s : HistSplitter) (sp : List (Int × Hist))
    (hne : sp ≠ []) (hcols : s.index_col ≠ s.hist_col) :
    pdDataFrameSetIndex s.index_col (.recs (sp.map (splitRecord s)))
      = .ok ⟨s.index_col, sp.map (fun p => .binKey p.1),
          sp.map (fun p => [(s.hist_col, .hcVal ⟨p.2⟩)])⟩ := by
  have hget : ∀ p : Int × Hist,
      recordGet [(s.index_col, Cell.binKey p.1),
        (s.hist_col, Cell.hcVal ⟨p.2⟩)] s.index_col = some (.binKey p.1) := by
    intro p
    simp [recordGet]
  have herase : ∀ p : Int × Hist,
      recordErase [(s.index_col, Cell.binKey p.1),
        (s.hist_col, Cell.hcVal ⟨p.2⟩)] s.index_col
        = [(s.hist_col, Cell.hcVal ⟨p.2⟩)] := by
    intro p
    simp [recordErase, Ne.symm hcols]
  have hfn : splitRecord s
      = fun p : Int × Hist =>
          [(s.index_col, Cell.binKey p.1), (s.hist_col, Cell.hcVal ⟨p.2⟩)] :=
    funext (splitRecord_fields s hcols)
  cases sp with
  | nil => exact absurd rfl hne
  | cons q qs =>
    rw [hfn]
    have hall : (([(s.index_col, Cell.binKey q.1),
          (s.hist_col, Cell.hcVal ⟨q.2⟩)] ::
        qs.map (fun p : Int × Hist =>
          [(s.index_col, Cell.binKey p.1), (s.hist_col, Cell.hcVal ⟨p.2⟩)])).all
        (fun r => (recordGet r s.index_col).isSome)) = true := by
      rw [List.all_eq_true]
      intro r hr
      rcases List.mem_cons.mp hr with rfl | hr2
      · rw [hget q]
        rfl
      · obtain ⟨p, hp, rfl⟩ := List.mem_map.mp hr2
        rw [hget p]
        rfl
    have hidx : List.filterMap (fun r => recordGet r s.index_col)
        ([(s.index_col, Cell.binKey q.1), (s.hist_col, Cell.hcVal ⟨q.2⟩)] ::
          qs.map (fun p : Int × Hist =>
            [(s.index_col, Cell.binKey p.1), (s.hist_col, Cell.hcVal ⟨p.2⟩)]))
        = (q :: qs).map (fun p => Cell.binKey p.1) := by
      rw [@List.filterMap_cons_some _ _ (fun r => recordGet r s.index_col) _ _ _
        (hget q), List.map_cons, List.filterMap_map]
      have hco : ((fun r => recordGet r s.index_col) ∘ fun p : Int × Hist =>
          [(s.index_col, Cell.binKey p.1), (s.hist_col, Cell.hcVal ⟨p.2⟩)])
          = fun p : Int × Hist => some (Cell.binKey p.1) :=
        funext (fun p => hget p)
      rw [hco]
      exact congrArg (List.cons (Cell.binKey q.1))
        (congrFun (List.filterMap_eq_map (fun p : Int × Hist => Cell.binKey p.1)) qs)
    have hrows : List.map (fun r => recordErase r s.index_col)
        ([(s.index_col, Cell.binKey q.1), (s.hist_col, Cell.hcVal ⟨q.2⟩)] ::
          qs.map (fun p : Int × Hist =>
            [(s.index_col, Cell.binKey p.1), (s.hist_col, Cell.hcVal ⟨p.2⟩)]))
        = (q :: qs).map (fun p => [(s.hist_col, Cell.hcVal ⟨p.2⟩)]) := by
      rw [List.map_cons, herase q, List.map_cons, List.map_map]
      have hco : ((fun r => recordErase r s.index_col) ∘ fun p : Int × Hist =>
          [(s.index_col, Cell.binKey p.1), (s.hist_col, Cell.hcVal ⟨p.2⟩)])
          = fun p : Int × Hist => [(s.hist_col, Cell.hcVal ⟨p.2⟩)] :=
        funext (fun p => herase p)
      rw [hco]
    rw [List.map_cons]
    simp only [pdDataFrameSetIndex]
    rw [if_pos hall, hidx, hrows]

/-- C1: constructing a `HistSplitter` with `flatten_output = true` and
`short_keys = true` raises the configuration error immediately at
construction time, before any transform processing (no splitter value is
produced); any other combination of the two flags constructs successfully. -/
theorem claim_C1_flag_exclusion_at_construction
    (read_key store_key : String) (features ignore_features : List String)
    (feature_begins_with : String)
    (project_on_axes flatten_output short_keys : Bool)
    (var_timestamp : List String) (index_col hist_col : String)
    (filter_empty_split_hists : Bool) :
    ((∃ e, mkHistSplitter read_key store_key features ignore_features
        feature_begins_with project_on_axes flatten_output short_keys
        var_timestamp index_col hist_col filter_empty_split_hists
        = .error e)
      ↔ (flatten_output = true ∧ short_keys = true)) ∧
    (¬(flatten_output = true ∧ short_keys = true) →
      ∃ t, mkHistSplitter read_key store_key features ignore_features
        feature_begins_with project_on_axes flatten_output short_keys
        var_timestamp index_col hist_col filter_empty_split_hists
        = .ok t) := by
  unfold mkHistSplitter
  cases flatten_output <;> cases short_keys <;> simp

/-- Witness for C1 at a concrete configuration: with `flatten_output = false`
and `short_keys = true` the constructor succeeds. -/
theorem claim_C1_witness :
    ∃ t, mkHistSplitter "hists" "output_hists" [] [] "" true false true []
      "date" "histogram" true = .ok t :=
  (claim_C1_flag_exclusion_at_construction "hists" "output_hists" [] [] ""
    true false true [] "date" "histogram" true).2 (by decide)

/-- C5: a candidate whose colon-token count differs from its histogram's
reported dimensionality is skipped without error and without output: the
accumulator is unchanged, no projection is invoked for it, and deleting the
candidate from the pass changes nothing — every other candidate is processed
exactly as before, so the bad feature never aborts the pass. -/
theorem claim_C5_dimension_mismatch_isolated (s : HistSplitter) (data : Dict)
    (f : String) (h : Hist)
    (hval : dictGet data (.str f) = some (.hist h))
    (hmm : (pySplit f ':').length ≠ h.ndim) :
    (∀ d, processFeature s data f d = .ok (d, none)) ∧
    (∀ fs1 fs2 d, runFeatures s data (fs1 ++ f :: fs2) d
        = runFeatures s data (fs1 ++ fs2) d) := by
  have hskip : ∀ d, processFeature s data f d = .ok (d, none) :=
    fun d => processFeature_mismatch_skip s data f h d hval hmm
  exact ⟨hskip, fun fs1 fs2 d => runFeatures_skip_elim s data f hskip fs1 fs2 d⟩

/-- Witness for C5 at a concrete input: the malformed candidate
`"time:x:y"` (three tokens, 2-dimensional histogram) is skipped and its
removal leaves the pass over the remaining valid candidate unchanged. -/
theorem claim_C5_witness :
    processFeature wNested exC5data "time:x:y" [] = .ok ([], none) ∧
    runFeatures wNested exC5data ["time:x:y", "time:x"] []
      = runFeatures wNested exC5data ["time:x"] [] := by
  have h := claim_C5_dimension_mismatch_isolated wNested exC5data "time:x:y"
    wH2x rfl (by decide)
  exact ⟨h.1 [], h.2 [] ["time:x"] []⟩

/-- C6: a candidate whose histogram has dimensionality at most 1 is skipped
before name-splitting or projection, raises nothing, and contributes no
output entry: the accumulator is unchanged, no projection call is recorded,
and deleting the candidate from the pass changes nothing. -/
theorem claim_C6_lowdim_skipped (s : HistSplitter) (data : Dict)
    (f : String) (h : Hist)
    (hval : dictGet data (.str f) = some (.hist h))
    (hdim : h.ndim ≤ 1) :
    (∀ d, processFeature s data f d = .ok (d, none)) ∧
    (∀ fs1 fs2 d, runFeatures s data (fs1 ++ f :: fs2) d
        = runFeatures s data (fs1 ++ fs2) d) := by
  have hskip : ∀ d, processFeature s data f d = .ok (d, none) :=
    fun d => processFeature_lowdim_skip s data f h d hval hdim
  exact ⟨hskip, fun fs1 fs2 d => runFeatures_skip_elim s data f hskip fs1 fs2 d⟩

/-- Witness for C6 at a concrete input: the 1-dimensional candidate
`"onedim"` is skipped without error and its removal leaves the pass over the
remaining valid candidate unchanged. -/
theorem claim_C6_witness :
    processFeature wNested exC6data "onedim" [] = .ok ([], none) ∧
    runFeatures wNested exC6data ["onedim", "time:x"] []
      = runFeatures wNested exC6data ["time:x"] [] := by
  have h := claim_C6_lowdim_skipped wNested exC6data "onedim" wH1d rfl
    (by decide)
  exact ⟨h.1 [], h.2 [] ["time:x"] []⟩

/-- C2 (code bug at the concrete failing input): the flattened configuration
is constructible and the candidate loop does accumulate the flat
bin-to-sub-histogram mapping (merging with last write wins), but the
table-conversion loop at the end of `transform` is not guarded by
`flatten_output`, so it applies `pd.DataFrame(...).set_index(...)` to each
bare sub-histogram value and raises — nothing is stored under `store_key`,
contrary to the claim that the flat mapping is stored. -/
theorem claim_C2_flatten_conversion_raises :
    mkHistSplitter "hists" "output_hists" [] [] "" true true false [] "date"
        "histogram" true = .ok wFlat ∧
    runFeatures wFlat [(.str "time:x", .hist wH2x)] ["time:x"] []
      = .ok ([(.int 0, .hist (.leaf 2)), (.int 2, .hist (.leaf 3))],
          [⟨"time:x", ⟨wH2x⟩, ⟨false, false, "time", "x", true⟩⟩]) ∧
    wFlat.transform wStore = .error "DataFrame constructor not properly called" := by
  exact ⟨rfl, rfl, rfl⟩

/-- Counterexample to C4 as stated: in flattened mode the de-duplication
check (`yname in divided`) never fires, because the accumulator is keyed by
integer bin values rather than `yname` strings.  With the two features `t:x`
and `u:x`, both deriving `yname` `x`, the later feature `u:x` is *not*
skipped — its projection is invoked too (both calls are recorded) — and its
bin `0` overwrites the earlier feature's bin `0` in the accumulator. -/
theorem claim_C4_counterexample :
    runFeatures wFlat exC4data ["t:x", "u:x"] []
      = .ok ([(.int 0, .hist (.leaf 5)), (.int 2, .hist (.leaf 3))],
          [⟨"t:x", ⟨wH2x⟩, ⟨false, false, "t", "x", true⟩⟩,
           ⟨"u:x", ⟨exC4hu⟩, ⟨false, false, "u", "x", true⟩⟩]) ∧
    dictGet [(.str "t:x", .hist wH2x), (.str "u:x", .hist exC4hu)] (.str "u:x")
      = some (.hist exC4hu) := by
  exact ⟨rfl, rfl⟩

/-- C4 (amended): the first writer wins through accumulator membership: once
a derived `yname` has an entry in the accumulator, every later candidate of
the same pass that derives that `yname` is skipped before its projection is
invoked (no projection call with that `yname` is recorded), and the
accumulated entry is never merged with or overwritten.  A candidate whose
projection was empty accumulates nothing and therefore does not block later
candidates, and in flattened mode the membership check never fires (see the
counterexample). -/
theorem claim_C4_first_writer_wins (s : HistSplitter) (data : Dict) :
    ∀ (fs : List String) (y : String) (div div' : Dict)
      (calls : List ProjCall),
      (dictGet div (.str y)).isSome →
      runFeatures s data fs div = .ok (div', calls) →
      (∀ c ∈ calls, c.args.yname ≠ y) ∧
      dictGet div' (.str y) = dictGet div (.str y) := by
  intro fs
  induction fs with
  | nil =>
    intro y div div' calls hy hok
    simp only [runFeatures, Except.ok.injEq, Prod.mk.injEq] at hok
    obtain ⟨rfl, rfl⟩ := hok
    exact ⟨by simp, rfl⟩
  | cons f fs ih =>
    intro y div div' calls hy hok
    obtain ⟨d2, oc, cs, hpf, hrest, rfl⟩ :=
      runFeatures_cons_elim s data f fs div div' calls hok
    rcases processFeature_ok_cases s data f div d2 oc hpf with
      ⟨rfl, rfl⟩ | ⟨h, hval, hdim, hlen, hnone, rfl, hcase⟩
    · obtain ⟨ihc, ihp⟩ := ih y _ div' cs hy hrest
      exact ⟨by simpa using ihc, ihp⟩
    · have hyne : (featureArgs s f h).yname ≠ y := by
        intro he
        rw [he] at hnone
        rw [hnone] at hy
        exact Bool.noConfusion hy
      rcases hcase with ⟨hemp, rfl⟩ | ⟨hne, rfl⟩
      · obtain ⟨ihc, ihp⟩ := ih y _ div' cs hy hrest
        refine ⟨?_, ihp⟩
        intro c hc
        rcases List.mem_cons.mp (by simpa using hc) with rfl | hc2
        · exact hyne
        · exact ihc c hc2
      · have hpres : dictGet (s.update_divided div
            (splitHist h (featureArgs s f h)) (featureArgs s f h).yname)
            (.str y) = dictGet div (.str y) :=
          update_divided_preserves_other s div
            (splitHist h (featureArgs s f h)) (featureArgs s f h).yname y
            (Ne.symm hyne)
        have hy2 : (dictGet (s.update_divided div
            (splitHist h (featureArgs s f h)) (featureArgs s f h).yname)
            (.str y)).isSome := by rw [hpres]; exact hy
        obtain ⟨ihc, ihp⟩ := ih y _ div' cs hy2 hrest
        refine ⟨?_, ihp.trans hpres⟩
        intro c hc
        rcases List.mem_cons.mp (by simpa using hc) with rfl | hc2
        · exact hyne
        · exact ihc c hc2

/-- Witness for the amended C4 at a concrete input: with `yname` `x` already
accumulated, the fresh candidate `t:z` is still projected (its recorded call
derives `z ≠ x`) while the duplicate-deriving candidate `u:x` is skipped
before projection, and the accumulated entry under `x` is untouched. -/
theorem claim_C4_witness :
    (∀ c ∈ [(⟨"t:z", ⟨wH2x⟩, ⟨true, false, "t", "z", true⟩⟩ : ProjCall)],
      c.args.yname ≠ "x") ∧
    dictGet [(DKey.str "x", DVal.recs [[("date", .binKey 0)]]),
        (.str "z", .recs
          [[("date", .binKey 0), ("histogram", .hcVal ⟨.leaf 2⟩)],
           [("date", .binKey 2), ("histogram", .hcVal ⟨.leaf 3⟩)]])]
      (.str "x") = dictGet exC4div0 (.str "x") := by
  exact claim_C4_first_writer_wins wNested exC4data2 ["t:z", "u:x"] "x"
    exC4div0 _ _ (by decide) rfl

/-- C7: a candidate whose projection result is empty is skipped without
error: the projection call is recorded but the accumulator is returned
unchanged, so nothing is inserted for it; and globally, every table stored
under `store_key` by a successful transform has at least one row — no empty
group ever appears in the output mapping. -/
theorem claim_C7_empty_split_no_entry (s : HistSplitter) :
    (∀ (data : Dict) (f : String) (h : Hist) (divided : Dict),
      dictGet data (.str f) = some (.hist h) → 1 < h.ndim →
      (pySplit f ':').length = h.ndim →
      dictGet divided (.str (featureArgs s f h).yname) = none →
      splitHist h (featureArgs s f h) = [] →
      processFeature s data f divided
        = .ok (divided, some ⟨f, ⟨h⟩, featureArgs s f h⟩)) ∧
    (∀ (ds ds' : Datastore) (out : Dict) (k : DKey) (df : DataFrame),
      s.transform ds = .ok ds' →
      dsGet ds' s.store_key = some (.dict out) →
      dictGet out k = some (.table df) → df.rows ≠ []) := by
  constructor
  · intro data f h divided hval hdim hlen hdup hemp
    rw [processFeature_eq s data f divided h hval]
    rw [if_neg (by omega : ¬ h.ndim ≤ 1)]
    rw [if_neg (fun hne => hne hlen)]
    rw [if_neg (by rw [hdup]; exact fun hh => Bool.noConfusion hh)]
    rw [if_pos (by rw [hemp]; rfl)]
  · intro ds ds' out k df hok hstore hdf
    obtain ⟨data, div, calls, out2, h1, h2, h3, rfl⟩ :=
      transform_ok_elim s ds ds' hok
    rw [dsGet_dsSet_self] at hstore
    have hout : out2 = out := by
      simp only [Option.some.injEq, DSValue.dict.injEq] at hstore
      exact hstore
    rw [← hout] at hdf
    obtain ⟨v, df2, hv, hpd, hw⟩ :=
      convertDivided_entry s.index_col div out2 h3 k _ hdf
    have hde : df = df2 := by
      simp only [DVal.table.injEq] at hw
      exact hw
    obtain ⟨r, rs, hvr, hdfr⟩ :=
      pdDataFrameSetIndex_ok_shape s.index_col v df2 hpd
    rw [hde, hdfr]
    simp

/-- Witness for C7 at concrete inputs: the all-empty candidate `te:x` is
projected but inserts nothing (accumulator stays empty), and in the nested
run over `wStore` the stored table for group `x` has a non-empty row list. -/
theorem claim_C7_witness :
    processFeature wNested exC7data "te:x" []
      = .ok ([], some ⟨"te:x", ⟨wHempty⟩, ⟨true, false, "te", "x", true⟩⟩) ∧
    (⟨"date", [.binKey 0, .binKey 2],
      [[("histogram", .hcVal ⟨.leaf 2⟩)], [("histogram", .hcVal ⟨.leaf 3⟩)]]⟩
        : DataFrame).rows ≠ [] := by
  constructor
  · exact (claim_C7_empty_split_no_entry wNested).1 exC7data "te:x" wHempty []
      rfl (by decide) (by decide) rfl (by decide)
  · exact (claim_C7_empty_split_no_entry wNested).2 wStore
      [("hists", .dict [(.str "time:x", .hist wH2x)]), ("other", .raw 7),
        ("output_hists", .dict [(.str "x", .table ⟨"date",
          [.binKey 0, .binKey 2],
          [[("histogram", .hcVal ⟨.leaf 2⟩)],
           [("histogram", .hcVal ⟨.leaf 3⟩)]]⟩)])]
      [(.str "x", .table ⟨"date", [.binKey 0, .binKey 2],
        [[("histogram", .hcVal ⟨.leaf 2⟩)],
         [("histogram", .hcVal ⟨.leaf 3⟩)]]⟩)]
      (.str "x") _ rfl rfl rfl

/-- C8: every projection invocation recorded during the candidate loop is
made with exactly the derived arguments: the temporal-conversion flag is true
iff the container reports its first axis temporal or `xname` is a member of
`var_timestamp`; `short_keys` and `filter_empty_split_hists` are exactly the
configured values; `xname` and `yname` are the first colon token and the
rejoined remaining tokens of the candidate's feature name; and the container
wraps exactly that candidate's histogram from the input mapping. -/
theorem claim_C8_projection_args (s : HistSplitter) (data : Dict) :
    ∀ (fs : List String) (div div' : Dict) (calls : List ProjCall),
      runFeatures s data fs div = .ok (div', calls) →
      ∀ c ∈ calls,
        (c.args.convert_time_index = true ↔
          (c.hc.is_ts = true ∨ c.args.xname ∈ s.var_timestamp)) ∧
        c.args.short_keys = s.short_keys ∧
        c.args.filter_empty_split_hists = s.filter_empty_split_hists ∧
        c.args.xname = (pySplit c.feature ':').headD "" ∧
        c.args.yname = String.intercalate ":" (pySplit c.feature ':').tail ∧
        dictGet data (.str c.feature) = some (.hist c.hc.hist) := by
  intro fs
  induction fs with
  | nil =>
    intro div div' calls hok c hc
    simp only [runFeatures, Except.ok.injEq, Prod.mk.injEq] at hok
    obtain ⟨rfl, rfl⟩ := hok
    simp at hc
  | cons f fs ih =>
    intro div div' calls hok c hc
    obtain ⟨d2, oc, cs, hpf, hrest, rfl⟩ :=
      runFeatures_cons_elim s data f fs div div' calls hok
    rcases processFeature_ok_cases s data f div d2 oc hpf with
      ⟨rfl, rfl⟩ | ⟨h, hval, hdim, hlen, hnone, rfl, hcase⟩
    · exact ih d2 div' cs hrest c (by simpa using hc)
    · rcases List.mem_cons.mp (by simpa using hc) with rfl | hc2
      · refine ⟨?_, rfl, rfl, rfl, rfl, hval⟩
        simp [featureArgs, HistogramContainer.is_ts]
      · exact ih _ div' cs hrest c hc2

/-- Witness for C8 at a concrete input: the candidate `u:x` has a
non-temporal first axis, but `u` is listed in `var_timestamp`, so its
recorded projection call carries `convert_time_index = true`, the configured
`short_keys`/`filter_empty_split_hists`, the derived names, and the wrapped
input histogram. -/
theorem claim_C8_witness :
    ((true = true) ↔
      ((⟨exC4hu⟩ : HistogramContainer).is_ts = true ∨ "u" ∈ exC8s.var_timestamp)) ∧
    (true = exC8s.short_keys) ∧
    (true = exC8s.filter_empty_split_hists) ∧
    ("u" = (pySplit "u:x" ':').headD "") ∧
    ("x" = String.intercalate ":" (pySplit "u:x" ':').tail) ∧
    dictGet exC4data (.str "u:x") = some (.hist exC4hu) := by
  exact claim_C8_projection_args exC8s exC4data ["u:x"]
    [] [(.str "x", .recs [[("date", .binKey 0), ("histogram", .hcVal ⟨.leaf 5⟩)]])]
    [⟨"u:x", ⟨exC4hu⟩, ⟨true, true, "u", "x", true⟩⟩] rfl
    ⟨"u:x", ⟨exC4hu⟩, ⟨true, true, "u", "x", true⟩⟩ (by decide)

/-- In nested mode, every accumulator entry produced by the candidate loop
(started from an accumulator already satisfying this) is the ordered record
sequence of a non-empty projection of one input histogram, stored under its
derived `yname`. -/
theorem runFeatures_nested_invariant (s : HistSplitter) (data : Dict)
    (hflat : s.flatten_output = false) :
    ∀ (fs : List String) (div div' : Dict) (calls : List ProjCall),
      runFeatures s data fs div = .ok (div', calls) →
      (∀ y v, dictGet div (.str y) = some v →
        ∃ f h, dictGet data (.str f) = some (.hist h) ∧
          y = (featureArgs s f h).yname ∧
          splitHist h (featureArgs s f h) ≠ [] ∧
          v = .recs ((splitHist h (featureArgs s f h)).map (splitRecord s))) →
      ∀ y v, dictGet div' (.str y) = some v →
        ∃ f h, dictGet data (.str f) = some (.hist h) ∧
          y = (featureArgs s f h).yname ∧
          splitHist h (featureArgs s f h) ≠ [] ∧
          v = .recs ((splitHist h (featureArgs s f h)).map (splitRecord s)) := by
  intro fs
  induction fs with
  | nil =>
    intro div div' calls hok hinv
    simp only [runFeatures, Except.ok.injEq, Prod.mk.injEq] at hok
    obtain ⟨rfl, rfl⟩ := hok
    exact hinv
  | cons f fs ih =>
    intro div div' calls hok hinv
    obtain ⟨d2, oc, cs, hpf, hrest, rfl⟩ :=
      runFeatures_cons_elim s data f fs div div' calls hok
    rcases processFeature_ok_cases s data f div d2 oc hpf with
      ⟨rfl, rfl⟩ | ⟨h, hval, hdim, hlen, hnone, rfl, hcase⟩
    · exact ih _ div' cs hrest hinv
    · rcases hcase with ⟨hemp, rfl⟩ | ⟨hne, rfl⟩
      · exact ih _ div' cs hrest hinv
      · refine ih _ div' cs hrest ?_
        intro y v hv
        rw [update_divided_nested s hflat] at hv
        by_cases hy : y = (featureArgs s f h).yname
        · subst hy
          rw [dictGet_dictSet_self] at hv
          exact ⟨f, h, hval, rfl, hne, (Option.some.inj hv).symm⟩
        · rw [dictGet_dictSet_ne] at hv
          · exact hinv y v hv
          · intro hk
            apply hy
            cases hk
            rfl

/-- C3: in nested mode (distinct field names), every table a successful
transform stores under `store_key` is keyed by the derived `yname` of one
input histogram and is built from the ordered record sequence of that
histogram's non-empty projection: its index is named `index_col`, its index
values are the projection's bin keys in projection order, and its rows hold
the sub-histogram payloads in the same order. -/
theorem claim_C3_nested_table_structure (s : HistSplitter) (ds ds' : Datastore)
    (out : Dict) (y : String) (df : DataFrame)
    (hflat : s.flatten_output = false)
    (hcols : s.index_col ≠ s.hist_col)
    (hok : s.transform ds = .ok ds')
    (hstore : dsGet ds' s.store_key = some (.dict out))
    (hdf : dictGet out (.str y) = some (.table df)) :
    ∃ (data : Dict) (f : String) (h : Hist),
      get_datastore_object ds s.read_key = .ok data ∧
      dictGet data (.str f) = some (.hist h) ∧
      y = (featureArgs s f h).yname ∧
      splitHist h (featureArgs s f h) ≠ [] ∧
      df.indexName = s.index_col ∧
      df.index = (splitHist h (featureArgs s f h)).map (fun p => .binKey p.1) ∧
      df.rows = (splitHist h (featureArgs s f h)).map
        (fun p => [(s.hist_col, .hcVal ⟨p.2⟩)]) := by
  obtain ⟨data, div, calls, out2, h1, h2, h3, rfl⟩ :=
    transform_ok_elim s ds ds' hok
  rw [dsGet_dsSet_self] at hstore
  have hout : out2 = out := by
    simp only [Option.some.injEq, DSValue.dict.injEq] at hstore
    exact hstore
  rw [← hout] at hdf
  obtain ⟨v, df2, hv, hpd, hw⟩ :=
    convertDivided_entry s.index_col div out2 h3 _ _ hdf
  have hde : df = df2 := by
    simp only [DVal.table.injEq] at hw
    exact hw
  obtain ⟨f, h, hf, hy, hne, hvr⟩ := runFeatures_nested_invariant s data hflat
    (get_features s (data.map Prod.fst)) [] div calls h2
    (by intro y0 v0 hv0; simp [dictGet] at hv0) y v hv
  subst hvr
  rw [pd_on_splitRecords s _ hne hcols] at hpd
  have hmk : df = ⟨s.index_col,
      (splitHist h (featureArgs s f h)).map (fun p => .binKey p.1),
      (splitHist h (featureArgs s f h)).map
        (fun p => [(s.hist_col, .hcVal ⟨p.2⟩)])⟩ := by
    rw [hde]
    exact (Except.ok.inj hpd).symm
  exact ⟨data, f, h, h1, hf, hy, hne, by rw [hmk], by rw [hmk], by rw [hmk]⟩

/-- Witness for C3 at the concrete nested run over `wStore`: the stored
table for group `x` comes from the input histogram `time:x`, its index is the
bin keys `0, 2` of the projection (bin `1` was empty and filtered), in
order, and its rows carry the two sub-histograms in the same order. -/
theorem claim_C3_witness :
    ∃ (data : Dict) (f : String) (h : Hist),
      get_datastore_object wStore "hists" = .ok data ∧
      dictGet data (.str f) = some (.hist h) ∧
      "x" = (featureArgs wNested f h).yname ∧
      splitHist h (featureArgs wNested f h) ≠ [] ∧
      DataFrame.indexName ⟨"date", [.binKey 0, .binKey 2],
        [[("histogram", .hcVal ⟨.leaf 2⟩)], [("histogram", .hcVal ⟨.leaf 3⟩)]]⟩
        = "date" ∧
      DataFrame.index ⟨"date", [.binKey 0, .binKey 2],
        [[("histogram", .hcVal ⟨.leaf 2⟩)], [("histogram", .hcVal ⟨.leaf 3⟩)]]⟩
        = (splitHist h (featureArgs wNested f h)).map (fun p => .binKey p.1) ∧
      DataFrame.rows ⟨"date", [.binKey 0, .binKey 2],
        [[("histogram", .hcVal ⟨.leaf 2⟩)], [("histogram", .hcVal ⟨.leaf 3⟩)]]⟩
        = (splitHist h (featureArgs wNested f h)).map
            (fun p => [("histogram", .hcVal ⟨p.2⟩)]) := by
  exact claim_C3_nested_table_structure wNested wStore
    [("hists", .dict [(.str "time:x", .hist wH2x)]), ("other", .raw 7),
      ("output_hists", .dict [(.str "x", .table ⟨"date",
        [.binKey 0, .binKey 2],
        [[("histogram", .hcVal ⟨.leaf 2⟩)],
         [("histogram", .hcVal ⟨.leaf 3⟩)]]⟩)])]
    [(.str "x", .table ⟨"date", [.binKey 0, .binKey 2],
      [[("histogram", .hcVal ⟨.leaf 2⟩)],
       [("histogram", .hcVal ⟨.leaf 3⟩)]]⟩)]
    "x"
    ⟨"date", [.binKey 0, .binKey 2],
      [[("histogram", .hcVal ⟨.leaf 2⟩)],
       [("histogram", .hcVal ⟨.leaf 3⟩)]]⟩
    rfl (by decide) rfl rfl rfl

/-- Counterexample to C9 as stated: with `store_key` equal to `read_key`
(a configuration nothing rejects), the first run overwrites its own input
with the output tables; the second run re-reads those tables, its prefix
filter `t` matches none of the derived group names, and the now-empty result
overwrites the stored value — so the value under `store_key` after running
twice (an empty mapping) differs from the value a single run produces. -/
theorem claim_C9_counterexample :
    exC9s.transform exC9ds = .ok [("k", .dict exC9out)] ∧
    exC9s.transform [("k", .dict exC9out)] = .ok [("k", .dict [])] ∧
    DSValue.dict exC9out ≠ DSValue.dict [] := by
  refine ⟨rfl, rfl, ?_⟩
  decide

/-- C9 (amended): provided `store_key ≠ read_key`, `transform` is idempotent:
a second run on the result of a successful run succeeds and returns that
result unchanged (the pass is stateless, so it recomputes the same tables
from the untouched input and overwrites `store_key` with an equal value). -/
theorem claim_C9_idempotent_when_keys_distinct (s : HistSplitter)
    (ds ds1 : Datastore) (hne : s.read_key ≠ s.store_key)
    (hok : s.transform ds = .ok ds1) :
    s.transform ds1 = .ok ds1 := by
  obtain ⟨data, div, calls, out, h1, h2, h3, rfl⟩ :=
    transform_ok_elim s ds ds1 hok
  have h1b : get_datastore_object (dsSet ds s.store_key (.dict out))
      s.read_key = .ok data := by
    unfold get_datastore_object at h1 ⊢
    rw [dsGet_dsSet_ne _ _ _ _ hne]
    exact h1
  have hrun := transform_intro s (dsSet ds s.store_key (.dict out)) data div
    calls out h1b h2 h3
  rw [hrun, dsSet_dsSet_same]

/-- Witness for the amended C9 at the concrete nested run: a second
`transform` on the stored result of the first run returns it unchanged. -/
theorem claim_C9_witness :
    wNested.transform
      [("hists", .dict [(.str "time:x", .hist wH2x)]), ("other", .raw 7),
        ("output_hists", .dict [(.str "x", .table ⟨"date",
          [.binKey 0, .binKey 2],
          [[("histogram", .hcVal ⟨.leaf 2⟩)],
           [("histogram", .hcVal ⟨.leaf 3⟩)]]⟩)])]
      = .ok
      [("hists", .dict [(.str "time:x", .hist wH2x)]), ("other", .raw 7),
        ("output_hists", .dict [(.str "x", .table ⟨"date",
          [.binKey 0, .binKey 2],
          [[("histogram", .hcVal ⟨.leaf 2⟩)],
           [("histogram", .hcVal ⟨.leaf 3⟩)]]⟩)])] := by
  exact claim_C9_idempotent_when_keys_distinct wNested wStore _ (by decide) rfl

/-- C10: a successful `transform` writes only the `store_key` entry — every
other key keeps the exact value it had, and `store_key` maps to a dict —
and when the candidate loop accumulates nothing the run still succeeds,
storing the empty mapping under `store_key`. -/
theorem claim_C10_frame_and_always_writes (s : HistSplitter)
    (ds : Datastore) :
    (∀ ds', s.transform ds = .ok ds' →
      (∀ k, k ≠ s.store_key → dsGet ds' k = dsGet ds k) ∧
      ∃ m, dsGet ds' s.store_key = some (.dict m)) ∧
    (∀ data calls,
      get_datastore_object ds s.read_key = .ok data →
      runFeatures s data (get_features s (data.map Prod.fst)) []
        = .ok ([], calls) →
      s.transform ds = .ok (dsSet ds s.store_key (.dict []))) := by
  constructor
  · intro ds' hok
    obtain ⟨data, div, calls, out, h1, h2, h3, rfl⟩ :=
      transform_ok_elim s ds ds' hok
    exact ⟨fun k hk => dsGet_dsSet_ne ds s.store_key k (.dict out) hk,
      out, dsGet_dsSet_self ds s.store_key (.dict out)⟩
  · intro data calls h1 h2
    exact transform_intro s ds data [] calls [] h1 h2 rfl

/-- Witness for C10 at concrete inputs: in the nested run over `wStore`
every key other than `output_hists` (in particular the input mapping and the
unrelated entry) is unchanged and `output_hists` holds a dict; and on an
empty input mapping the run still succeeds and stores the empty mapping. -/
theorem claim_C10_witness :
    ((∀ k, k ≠ "output_hists" →
      dsGet
        [("hists", .dict [(.str "time:x", .hist wH2x)]), ("other", .raw 7),
          ("output_hists", .dict [(.str "x", .table ⟨"date",
            [.binKey 0, .binKey 2],
            [[("histogram", .hcVal ⟨.leaf 2⟩)],
             [("histogram", .hcVal ⟨.leaf 3⟩)]]⟩)])] k
        = dsGet wStore k) ∧
      ∃ m, dsGet
        [("hists", .dict [(.str "time:x", .hist wH2x)]), ("other", .raw 7),
          ("output_hists", .dict [(.str "x", .table ⟨"date",
            [.binKey 0, .binKey 2],
            [[("histogram", .hcVal ⟨.leaf 2⟩)],
             [("histogram", .hcVal ⟨.leaf 3⟩)]]⟩)])] "output_hists"
        = some (.dict m)) ∧
    wNested.transform exC10ds = .ok [("hists", .dict []), ("output_hists", .dict [])] := by
  exact ⟨(claim_C10_frame_and_always_writes wNested wStore).1 _ rfl,
    (claim_C10_frame_and_always_writes wNested exC10ds).2 [] [] rfl rfl⟩

end Popmon
